import Mathlib

/-!
# Verification of the libra job-aggregation pipeline

A shallow embedding of the core pipeline of the repository:

* `services/sponsor.py`  — employer reference set (`SponsorshipDB`): name
  normalization, CSV-derived strong-sponsor extraction, cache-staleness
  check, exact and fuzzy matching;
* `services/assist.py`   — the second (older) `SponsorshipDB.fuzzy_match`;
* `services/azalea.py`   — orchestrator: `deduplicate_jobs`, `tag_sponsorship`;
* `services/jsearch.py`  — query-source adapter: `fetch_positions` retry loop,
  `fetch_jobs` multi-keyword loop, per-source dedup by job id;
* `services/simplify.py` — table-source adapter: per-row link extraction and
  validation;
* `services/db_manager.py` — bulk upsert (`insert_jobs_bulk`): semantics of
  `INSERT .. ON CONFLICT (link) DO UPDATE` over an abstract row store.

Python strings are modelled as `String`/`List Char`; machine-level details
(encodings, pandas I/O, HTTP) are abstracted to the values they deliver to
the modelled code.  External library calls are modelled by their documented
behaviour: `rapidfuzz.fuzz.ratio` as the exact rational indel similarity on
a 0–100 scale, and `emoji.replace_emoji` as removal of characters lying in
the Unicode emoji blocks.
-/

namespace Libra

/-! ## Python string primitives -/

/-- Characters removed by Python `str.strip()` (the ASCII whitespace set;
inputs in this development are ASCII). -/
def isPySpace (c : Char) : Bool :=
  c = ' ' || c = '\t' || c = '\n' || c = '\r' || c.toNat = 11 || c.toNat = 12

/-- Python `str.strip()`: drop leading and trailing whitespace. -/
def pyStrip (l : List Char) : List Char :=
  ((l.dropWhile isPySpace).reverse.dropWhile isPySpace).reverse

/-- ASCII case-folding of one character, as Python `str.lower()` acts on the
ASCII range (all inputs in this development are ASCII). -/
def pyLowerChar (c : Char) : Char :=
  if 'A' ≤ c ∧ c ≤ 'Z' then Char.ofNat (c.toNat + 32) else c

/-- Python `str.lower()`. -/
def pyLower (l : List Char) : List Char := l.map pyLowerChar

/-- One pass of Python `str.replace(pat, "")`: scan left to right, removing
each non-overlapping occurrence of `pat`.  Structural recursion on a fuel
argument (adequate whenever `fuel ≥ l.length`, see `removeAll`). -/
def removeAllGo (pat : List Char) : Nat → List Char → List Char
  | _, [] => []
  | 0, l => l
  | fuel + 1, c :: rest =>
    if pat ≠ [] ∧ pat.isPrefixOf (c :: rest) then
      removeAllGo pat fuel (List.drop pat.length (c :: rest))
    else
      c :: removeAllGo pat fuel rest

/-- Python `s.replace(pat, "")`. -/
def removeAll (pat : List Char) (l : List Char) : List Char :=
  removeAllGo pat l.length l

/-- Embedding of `SponsorshipDB._normalize` of `services/sponsor.py` (lines 149–159), on
character lists: `company.strip().lower().replace(",", "").replace(".", "")
.replace("inc", "").replace("llc", "").replace("corp", "")`. -/
def sponsorNormalizeL (l : List Char) : List Char :=
  removeAll ['c', 'o', 'r', 'p']
    (removeAll ['l', 'l', 'c']
      (removeAll ['i', 'n', 'c']
        (removeAll ['.']
          (removeAll [',']
            (pyLower (pyStrip l))))))

/-- Embedding of `SponsorshipDB._normalize` of `services/sponsor.py` on `String`. -/
def sponsorNormalize (s : String) : String :=
  ⟨sponsorNormalizeL s.data⟩

/-- Embedding of `SponsorshipDB._normalize` of `services/assist.py` (lines 39–40):
`company.strip().lower()`. -/
def assistNormalize (s : String) : String :=
  ⟨pyLower (pyStrip s.data)⟩

example : sponsorNormalize "Google LLC" = "google " := by decide
example : sponsorNormalize "google " = "google" := by decide
example : sponsorNormalize "Tiny Startup Co" = "tiny startup co" := by decide
example : assistNormalize "  Acme INC " = "acme inc" := by decide

/-! ## Canonical job records -/

/-- Model of the external `emoji.replace_emoji(·, replace='')` call: a
character is treated as an emoji when it lies in the Unicode emoji blocks
(Miscellaneous Symbols / Dingbats / Symbols and Pictographs ranges). -/
def isEmojiChar (c : Char) : Bool :=
  (0x1F000 ≤ c.toNat && c.toNat ≤ 0x1FAFF) ||
  (0x2600 ≤ c.toNat && c.toNat ≤ 0x27BF) ||
  (0x2B00 ≤ c.toNat && c.toNat ≤ 0x2BFF) ||
  c.toNat = 0xFE0F

/-- Model of `emoji.replace_emoji(l, replace='')`. -/
def removeEmoji (l : List Char) : List Char :=
  l.filter fun c => !(isEmojiChar c)

/-- The canonical job record: the union of the dict fields produced by the
source adapters and consumed by dedup, tagging and persistence.  Optional
fields default as the adapters default them. -/
structure Job where
  company : String := ""
  title : String := ""
  location : String := ""
  link : Option String := none
  source : String := "simplify"
  remote : Bool := false
  datePosted : Option String := none
  description : Option String := none
  tags : List String := []
  sponsorship : Option String := none
  jobId : Option String := none
deriving Repr, DecidableEq

/-! ## Deduplicator (`Azalea_.deduplicate_jobs`, `services/azalea.py` 380–399) -/

/-- The identity key built inside `deduplicate_jobs`:
`emoji.replace_emoji(company).strip().lower()`, `title.strip().lower()`,
`location.strip().lower()`. -/
def dedupKey (j : Job) : String × String × String :=
  (⟨pyLower (pyStrip (removeEmoji j.company.data))⟩,
   ⟨pyLower (pyStrip j.title.data)⟩,
   ⟨pyLower (pyStrip j.location.data)⟩)

/-- Python `all(key)` on the key tuple: every component non-empty. -/
def validKey (k : String × String × String) : Bool :=
  decide (k.1 ≠ "") && decide (k.2.1 ≠ "") && decide (k.2.2 ≠ "")

/-- The loop of `deduplicate_jobs`, carrying the `seen` set of keys. -/
def dedupGo (seen : List (String × String × String)) : List Job → List Job
  | [] => []
  | j :: rest =>
    if dedupKey j ∉ seen ∧ validKey (dedupKey j) then
      j :: dedupGo (dedupKey j :: seen) rest
    else
      dedupGo seen rest

/-- Embedding of `Azalea_.deduplicate_jobs`: first-seen-wins dedup on the normalized
(company, title, location) key, keeping only records whose three key
components are all non-empty. -/
def deduplicateJobs (jobs : List Job) : List Job :=
  dedupGo [] jobs

example :
    deduplicateJobs
      [{ company := "Acme", title := "SWE", location := "NYC", link := some "a" },
       { company := " ACME ", title := "swe", location := "nyc", link := some "b" },
       { company := "Acme", title := "", location := "NYC" }] =
      [{ company := "Acme", title := "SWE", location := "NYC", link := some "a" }] := by
  decide

/-! ## Fuzzy matching (`rapidfuzz.fuzz.ratio` and the two `fuzzy_match`es) -/

/-- Longest-common-subsequence length, with a structural fuel argument
(adequate whenever `fuel ≥ a.length + b.length`, see `lcsLen`). -/
def lcsGo : Nat → List Char → List Char → Nat
  | 0, _, _ => 0
  | _ + 1, [], _ => 0
  | _ + 1, _, [] => 0
  | fuel + 1, a :: as, b :: bs =>
    if a = b then lcsGo fuel as bs + 1
    else max (lcsGo fuel (a :: as) bs) (lcsGo fuel as (b :: bs))

/-- Longest-common-subsequence length of two character lists. -/
def lcsLen (a b : List Char) : Nat :=
  lcsGo (a.length + b.length) a b

/-- The external `rapidfuzz.fuzz.ratio` scorer: the normalized indel
similarity on a 0–100 scale, `100 * (1 - dist/(|a|+|b|)) = 200·lcs/(|a|+|b|)`,
modelled as an exact rational (two empty strings score 100). -/
def fuzzScore (a b : List Char) : ℚ :=
  if a.length + b.length = 0 then 100
  else (200 * lcsLen a b : ℚ) / (a.length + b.length : ℚ)

/-- The best score found by `process.extractOne(normalized, employers,
scorer=fuzz.ratio)` in `services/sponsor.py` line 177: the maximum of the
scorer over the reference set. -/
def bestScore (employers : List String) (normalized : String) : ℚ :=
  employers.foldl (fun acc e => max acc (fuzzScore normalized.data e.data)) 0

/-- Embedding of `SponsorshipDB.fuzzy_match` of `services/sponsor.py` (lines 165–180):
false on empty input or empty set, short-circuit on exact membership of the
normalized name, otherwise compare the best fuzzy score to the threshold
(default 90). -/
def sponsorFuzzyMatch (employers : List String) (name : String) (threshold : ℚ) : Bool :=
  if name = "" ∨ employers = [] then false
  else if sponsorNormalize name ∈ employers then true
  else decide (threshold ≤ bestScore employers (sponsorNormalize name))

/-- Embedding of `SponsorshipDB.fuzzy_match` of `services/assist.py` (lines 45–49):
`any(fuzz.ratio(employer, normalized_target) >= threshold)` when the input
is non-empty, else false. -/
def assistFuzzyMatch (employers : List String) (name : String) (threshold : ℚ) : Bool :=
  if name ≠ "" then
    employers.any fun e => decide (threshold ≤ fuzzScore e.data (assistNormalize name).data)
  else false

/-- Embedding of `SponsorshipDB.has_sponsorship` of `services/sponsor.py` (lines 161–163):
exact membership of the normalized name. -/
def hasSponsorship (employers : List String) (name : String) : Bool :=
  sponsorNormalize name ∈ employers

example : lcsLen "abcd".data "abce".data = 3 := by decide
example : fuzzScore [] [] = 100 := by decide
example : sponsorFuzzyMatch ["google "] "Google LLC" 90 = true := by decide
example : sponsorFuzzyMatch [] "Google LLC" 90 = false := by decide
example : assistFuzzyMatch [""] " " 90 = true := by decide

/-! ## Strong-sponsor extraction (`SponsorshipDB._parse_csv`, sponsor.py 94–119)

`_parse_csv` normalizes the employer-name column, counts occurrences of each
normalized name (`value_counts`), and keeps the names with at least
`min_cases` occurrences (default 3).  `strongSponsors` embeds that pipeline
applied to the values of the located employer column, for files (as in the
scenario of the spec) without the status columns consulted by
`_filter_sponsorships`, so that filter is the identity. -/

/-- The set of strong sponsors extracted from the employer-name column. -/
def strongSponsors (names : List String) (minCases : Nat) : List String :=
  ((names.map sponsorNormalize).dedup).filter fun x =>
    minCases ≤ (names.map sponsorNormalize).count x

example :
    strongSponsors (List.replicate 5 "Google LLC" ++ ["Tiny Startup Co"]) 3 =
      ["google "] := by decide

/-! ## Cache staleness check (`services/sponsor.py` 34–66) -/

/-- A reference file as seen by `_csv_has_changed`: whether it exists, and
its modification time. -/
structure SrcFile where
  present : Bool
  mtime : Int
deriving Repr, DecidableEq

/-- Embedding of `SponsorshipDB._csv_has_changed` (lines 34–46): true when the cache file
is missing, or some existing CSV has a modification time strictly greater
than the cache's. -/
def csvHasChanged (cacheExists : Bool) (cacheMtime : Int) (csvs : List SrcFile) : Bool :=
  if !cacheExists then true
  else csvs.any fun f => f.present && decide (cacheMtime < f.mtime)

/-- What `_load_with_cache_check` ends up doing. -/
inductive LoadAction where
  | rebuild
  | loadCache
  | rebuildOnCacheLoadFailure
deriving Repr, DecidableEq

/-- Embedding of `SponsorshipDB._load_with_cache_check` (lines 48–55) together with the
failure fallback of `_load_from_cache` (lines 57–66): rebuild when the CSVs
changed; otherwise try the cache, and rebuild if reading or parsing the
cache file raises (`cacheLoadOk = false`). -/
def loadWithCacheCheck (cacheExists : Bool) (cacheMtime : Int) (csvs : List SrcFile)
    (cacheLoadOk : Bool) : LoadAction :=
  if csvHasChanged cacheExists cacheMtime csvs then .rebuild
  else if cacheLoadOk then .loadCache else .rebuildOnCacheLoadFailure

/-- Whether a `LoadAction` re-parses the reference files (`_rebuild_cache`
is invoked). -/
def reparsesFiles : LoadAction → Bool
  | .loadCache => false
  | .rebuild => true
  | .rebuildOnCacheLoadFailure => true

/-! ## Sponsorship tagger (`Azalea_.tag_sponsorship`, `services/azalea.py` 401–428)

The per-record lookup (`sponsorship_db.fuzzy_match` / `has_sponsorship`) is
abstracted as a `lookup : String → Except Unit Bool` so that a raising
lookup can be represented (`.error`).  The whole loop runs inside a single
`try`: as in the Python, an exception anywhere makes the function return 0,
while the records already processed keep the tags written into them (the
dicts are mutated in place). -/

/-- The sponsorship string written by `tag_sponsorship`. -/
def tagLabel (b : Bool) : String :=
  if b then "Likely sponsorship" else "No record found"

/-- The tagging loop: returns the tagged count (as `.ok`) or the propagated
exception (as `.error`), together with the list of records as they stand
when the loop ends (already-processed records tagged, the rest untouched). -/
def tagGo (lookup : String → Except Unit Bool) : List Job → Except Unit Nat × List Job
  | [] => (.ok 0, [])
  | j :: rest =>
    match lookup j.company with
    | .error e => (.error e, j :: rest)
    | .ok b =>
      match tagGo lookup rest with
      | (.ok n, rest') =>
        (.ok (n + if b then 1 else 0), { j with sponsorship := some (tagLabel b) } :: rest')
      | (.error e, rest') =>
        (.error e, { j with sponsorship := some (tagLabel b) } :: rest')

/-- Embedding of `Azalea_.tag_sponsorship`: the stage-level `except` converts any raised
exception into a returned count of 0. -/
def tagSponsorship (lookup : String → Except Unit Bool) (jobs : List Job) :
    Nat × List Job :=
  match tagGo lookup jobs with
  | (.ok n, js) => (n, js)
  | (.error _, js) => (0, js)

example :
    tagSponsorship (fun _ => .ok true) [{ company := "a" }] =
      (1, [{ company := "a", sponsorship := some "Likely sponsorship" }]) := by
  decide

example :
    tagSponsorship (fun _ => .error ()) [{ company := "a" }] =
      (0, [{ company := "a" }]) := by
  decide

/-! ## Bulk upsert (`JobDatabase.insert_jobs_bulk`, `services/db_manager.py` 272–325)

The persisted table is modelled as a list of rows in insertion order; `link`
is declared `UNIQUE`.  The semantics of one `INSERT … VALUES … ON CONFLICT
(link) DO UPDATE` command over the row set follows PostgreSQL:

* a row whose `link` is NULL never conflicts (SQL NULLs compare unequal), so
  it is always inserted;
* a row whose `link` is already present updates that stored row's mutable
  fields (everything in the `SET` list — here we replace the row, which has
  the same `link`);
* if two rows of the same command would affect the same stored row, the
  command fails ("ON CONFLICT DO UPDATE command cannot affect row a second
  time") and, because `insert_jobs_bulk` rolls back and re-raises on
  `psycopg2.Error`, the whole bulk write errors. -/

/-- Whether a stored row with the given link value exists. -/
def linkPresent (store : List Job) (l : String) : Bool :=
  store.any fun r => r.link = some l

/-- One command of `INSERT … ON CONFLICT (link) DO UPDATE`, processing the
value rows in order while tracking the links already affected by this
command.  Returns the new store, the number of inserted rows and the number
of updated rows (psycopg2's `rowcount` is their sum). -/
def bulkGo (store : List Job) (affected : List String) (ins upd : Nat) :
    List Job → Except String (List Job × Nat × Nat)
  | [] => .ok (store, ins, upd)
  | j :: rest =>
    match j.link with
    | none => bulkGo (store ++ [j]) affected (ins + 1) upd rest
    | some l =>
      if l ∈ affected then .error "ON CONFLICT DO UPDATE command cannot affect row a second time"
      else if linkPresent store l then
        bulkGo (store.map fun r => if r.link = some l then j else r) (l :: affected) ins (upd + 1) rest
      else
        bulkGo (store ++ [j]) (l :: affected) (ins + 1) upd rest

/-- Embedding of `JobDatabase.insert_jobs_bulk` over the abstract store. -/
def insertJobsBulk (store : List Job) (jobs : List Job) :
    Except String (List Job × Nat × Nat) :=
  bulkGo store [] 0 0 jobs

example :
    insertJobsBulk [] [{ company := "a", link := some "x" }] =
      .ok ([{ company := "a", link := some "x" }], 1, 0) := rfl

example :
    insertJobsBulk [{ company := "a", link := some "x" }]
      [{ company := "b", link := some "x" }] =
      .ok ([{ company := "b", link := some "x" }], 0, 1) := rfl

/-! ## Query-source adapter (`JSearchHelper`, `services/jsearch.py`)

The HTTP layer is abstracted as a response oracle `Nat → ApiResp` giving the
outcome of the request made on each attempt.  `fetch_positions` (lines
21–114) loops over `range(retry_count)`: 403/401 return `[]` immediately;
429 sleeps `(attempt+1)*5` seconds (recorded in the returned wait list) and
retries; any other `requests.RequestException` (including non-2xx statuses
raised by `raise_for_status`, modelled as `.err`) retries after a fixed 2s
sleep unless it is the final attempt; a 2xx response is parsed, filtered by
employment type and mapped.  Falling off the loop returns `[]`. -/

/-- A raw job dict from the JSearch payload (the fields `_map_job` and the
employment-type filter read). -/
structure RJob where
  jobId : Option String := none
  company : String := ""
  title : String := ""
  city : String := ""
  state : String := ""
  country : String := ""
  applyLink : String := ""
  employmentTypes : List String := []
  remote : Bool := false
  description : Option String := none
  datePosted : Option String := none
deriving Repr, DecidableEq

/-- Outcome of one HTTP request of `fetch_positions`. -/
inductive ApiResp where
  | ok (data : List RJob)
  | rate429
  | auth401
  | forbidden403
  | err
deriving Repr, DecidableEq

/-- Embedding of `JSearchHelper._get_location`: join the non-empty parts of
city/state/country with ", ", defaulting to "Not specified". -/
def getLocation (city state country : String) : String :=
  let parts := [city, state, country].filter fun p => p ≠ ""
  if parts = [] then "Not specified" else String.intercalate ", " parts

/-- The employment-type filter loop of `fetch_positions` (lines 89–101). -/
def filterByEmployment (positionType : String) (js : List RJob) : List RJob :=
  js.filter fun j =>
    if positionType = "both" then
      decide ("INTERN" ∈ j.employmentTypes) || decide ("FULLTIME" ∈ j.employmentTypes)
    else if positionType = "intern" then decide ("INTERN" ∈ j.employmentTypes)
    else if positionType = "fulltime" then decide ("FULLTIME" ∈ j.employmentTypes)
    else false

/-- Embedding of `JSearchHelper._map_job` (lines 116–144), restricted to the canonical
record fields. -/
def mapJSearchJob (r : RJob) : Job :=
  { jobId := r.jobId, company := r.company, title := r.title,
    location := getLocation r.city r.state r.country,
    link := some r.applyLink, source := "jsearch", remote := r.remote,
    datePosted := r.datePosted, description := r.description,
    sponsorship := none }

/-- The retry loop of `fetch_positions`, with `fuel` the number of attempts
remaining (initially `retry_count`) and `attempt` the current index.
Returns the list of 429 back-off waits performed and the fetched jobs. -/
def fetchPositionsGo (resp : Nat → ApiResp) (positionType : String) :
    Nat → Nat → List Nat × List Job
  | _, 0 => ([], [])
  | attempt, fuel + 1 =>
    match resp attempt with
    | .forbidden403 => ([], [])
    | .auth401 => ([], [])
    | .rate429 =>
      let r := fetchPositionsGo resp positionType (attempt + 1) fuel
      ((attempt + 1) * 5 :: r.1, r.2)
    | .err =>
      if 0 < fuel then fetchPositionsGo resp positionType (attempt + 1) fuel
      else ([], [])
    | .ok data => ([], (filterByEmployment positionType data).map mapJSearchJob)

/-- Embedding of `JSearchHelper.fetch_positions` with its key-configured guard
(`hasKey = false` models a missing API key) and default `retry_count = 3`. -/
def fetchPositions (hasKey : Bool) (resp : Nat → ApiResp) (positionType : String)
    (retryCount : Nat) : List Nat × List Job :=
  if !hasKey then ([], []) else fetchPositionsGo resp positionType 0 retryCount

/-- Embedding of `JSearchHelper._deduplicate_jobs` (lines 167–177): keep the first record
for each truthy `job_id` seen, dropping records without one. -/
def dedupByIdGo (seen : List String) : List Job → List Job
  | [] => []
  | j :: rest =>
    match j.jobId with
    | some i => if i ≠ "" ∧ i ∉ seen then j :: dedupByIdGo (i :: seen) rest
               else dedupByIdGo seen rest
    | none => dedupByIdGo seen rest

/-- Embedding of `JSearchHelper._deduplicate_jobs` with the initially cleared `seen` set. -/
def dedupById (jobs : List Job) : List Job :=
  dedupByIdGo [] jobs

/-- Embedding of `JSearchHelper.fetch_jobs` (lines 179–220): one `fetch_positions` call
per query (the oracle's first index is the query's position), concatenated
in order and deduplicated by the API's native job id.  Inter-request sleeps
are not modelled. -/
def fetchJobs (hasKey : Bool) (oracle : Nat → Nat → ApiResp) (queries : List String)
    (positionType : String) : List Job :=
  if !hasKey then []
  else
    dedupById
      (((List.range queries.length).map fun i =>
          (fetchPositions hasKey (oracle i) positionType 3).2).flatten)

example :
    (fetchPositions true (fun _ => .rate429) "intern" 3).1 = [5, 10, 15] := by decide

/-! ## Table-source adapter (`SimplifyHelper`, `services/simplify.py`)

A table row is a list of cells; each cell carries its stripped text
(`get_text(strip=True)`) and the `href`s of its anchor tags in document
order (`td.find("a", href=True)` sees only the first). -/

/-- Substring containment on character lists (Python's `in` on `str`). -/
def containsSub (pat : List Char) : List Char → Bool
  | [] => decide (pat = [])
  | c :: rest => pat.isPrefixOf (c :: rest) || containsSub pat rest

/-- One `<td>` cell of a parsed row. -/
structure Cell where
  text : String := ""
  anchors : List String := []
deriving Repr, DecidableEq

/-- The href test used at `services/simplify.py` lines 80 and 88: the href
is truthy, is not a same-document anchor (`#…`), and does not point back at
`github.com`. -/
def validHref (h : String) : Bool :=
  decide (h ≠ "") && !(['#'].isPrefixOf h.data) && !(containsSub "github.com".data h.data)

/-- The first anchor of a cell, as found by `td.find("a", href=True)`. -/
def firstAnchor (td : Cell) : Option String :=
  td.anchors.head?

/-- The candidate link a single cell offers: its first anchor, if valid. -/
def cellCandidate (td : Cell) : Option String :=
  match firstAnchor td with
  | some h => if validHref h then some h else none
  | none => none

/-- The fallback scan of `parse_tables` (lines 83–90): walk the given cells
in order; at each cell look only at its first anchor, take it if valid,
otherwise move on. -/
def fallbackScan : List Cell → Option String
  | [] => none
  | td :: rest =>
    match firstAnchor td with
    | some h => if validHref h then some h else fallbackScan rest
    | none => fallbackScan rest

/-- The primary link attempt of `parse_tables` (lines 76–81): the first
anchor of `tds[3]`, when the row has more than 3 cells and that anchor is
valid. -/
def extractPrimary (tds : List Cell) : Option String :=
  if 3 < tds.length then
    match tds[3]? with
    | some td => cellCandidate td
    | none => none
  else none

/-- The link extraction of `parse_tables` (lines 76–90): the primary
attempt on `tds[3]`; if it produced nothing, the fallback scan of `tds[1:]`
(which starts at the title column). -/
def extractLink (tds : List Cell) : Option String :=
  match extractPrimary tds with
  | some h => some h
  | none => fallbackScan (List.drop 1 tds)

/-- Embedding of `SimplifyHelper._is_valid_job` (lines 101–109): company, title, location
and link all truthy. -/
def isValidJob (j : Job) : Bool :=
  decide (j.company ≠ "") && decide (j.title ≠ "") && decide (j.location ≠ "") &&
    (match j.link with
     | some l => decide (l ≠ "")
     | none => false)

/-- Embedding of `SimplifyHelper.clean_company_name` (lines 31–34): remove emojis, strip,
lower. -/
def cleanCompanyName (s : String) : String :=
  ⟨pyLower (pyStrip (removeEmoji s.data))⟩

/-- The body of the row loop of `parse_tables` (lines 51–94), for one row:
given the current carried company, returns the job emitted for this row (if
any) and the carried company afterwards.  Rows with fewer than 3 cells are
skipped; a non-empty first column other than the `"↳"` marker starts a new
company; rows with no resolvable company are dropped; the carried company is
overwritten by its cleaned form (as the Python reassigns `current_company`);
the built record is kept only if `_is_valid_job` accepts it. -/
def processRow (currentCompany : Option String) (tds : List Cell) :
    Option Job × Option String :=
  match tds with
  | t0 :: t1 :: t2 :: _ =>
    let resolved : Option String :=
      if t0.text ≠ "" ∧ t0.text ≠ "↳" then some t0.text else currentCompany
    match resolved with
    | none => (none, none)
    | some comp =>
      let compClean := cleanCompanyName comp
      let job : Job :=
        { company := compClean, title := t1.text, location := t2.text,
          link := extractLink tds, source := "simplify" }
      if isValidJob job then (some job, some compClean) else (none, some compClean)
  | _ => (none, currentCompany)

example :
    (processRow none [{ text := "Acme" }, { text := "SWE", anchors := ["https://a.example/x"] },
        { text := "NYC" }]).1 =
      some { company := "acme", title := "SWE", location := "NYC",
             link := some "https://a.example/x", source := "simplify" } := by decide

example :
    (processRow (some "acme") [{ text := "↳" }, { text := "SWE" },
        { text := "NYC", anchors := ["#top"] }]).1 = none := by decide

/-! # Theorems -/

/-! ## C5 — strong-sponsor scenario -/

/-- C5 (counterexample): the claim says the reference set built from five
"Google LLC" rows and one "Tiny Startup Co" row (threshold 3) contains the
entry `"google"`.  It does not: `_normalize` strips whitespace *before*
removing the `llc` suffix, so the stored entry is `"google "` with a
trailing space, and `"google"` itself is not a member. -/
theorem strongSponsors_scenario_counterexample :
    "google" ∉ strongSponsors (List.replicate 5 "Google LLC" ++ ["Tiny Startup Co"]) 3 := by
  decide

/-- C5 (amended): the set built from five "Google LLC" rows and one
"Tiny Startup Co" row with minimum-occurrence threshold 3 contains the
normalized entry `"google "` (trailing space left behind by suffix
removal) and does not contain `"tiny startup co"`. -/
theorem strongSponsors_scenario_amended :
    "google " ∈ strongSponsors (List.replicate 5 "Google LLC" ++ ["Tiny Startup Co"]) 3 ∧
    "tiny startup co" ∉ strongSponsors (List.replicate 5 "Google LLC" ++ ["Tiny Startup Co"]) 3 := by
  decide

/-! ## C6 — cache staleness decision -/

/-- C6 (counterexample): the claim says the reference set is rebuilt
*exactly* when the cache file is missing or some existing reference file is
strictly newer than the cache.  False: when the cache file exists and is
fresh (cache mtime 10, a single CSV with mtime 5) but fails to load
(`cacheLoadOk = false`), `_load_from_cache`'s exception handler rebuilds
anyway. -/
theorem loadWithCacheCheck_claim_counterexample :
    ¬ (∀ (cacheExists : Bool) (cacheMtime : Int) (csvs : List SrcFile) (cacheLoadOk : Bool),
        reparsesFiles (loadWithCacheCheck cacheExists cacheMtime csvs cacheLoadOk) =
          (!cacheExists || csvs.any fun f => f.present && decide (cacheMtime < f.mtime))) := by
  intro h
  exact absurd (h true 10 [⟨true, 5⟩] false) (by decide)

/-- C6 (amended): the reference set is rebuilt from the reference files
exactly when the cache file is missing, some existing reference file's
mtime is strictly newer than the cache's, or the cache file fails to load;
otherwise (and only then) it is loaded from the cache without re-parsing
any reference file. -/
theorem loadWithCacheCheck_amended (cacheExists : Bool) (cacheMtime : Int)
    (csvs : List SrcFile) (cacheLoadOk : Bool) :
    reparsesFiles (loadWithCacheCheck cacheExists cacheMtime csvs cacheLoadOk) =
      (!cacheExists || (csvs.any fun f => f.present && decide (cacheMtime < f.mtime)) ||
        !cacheLoadOk) ∧
    (loadWithCacheCheck cacheExists cacheMtime csvs cacheLoadOk = .loadCache ↔
      csvHasChanged cacheExists cacheMtime csvs = false ∧ cacheLoadOk = true) := by
  have key : ∀ (changed ok : Bool),
      reparsesFiles
          (if changed then LoadAction.rebuild
           else if ok then LoadAction.loadCache else LoadAction.rebuildOnCacheLoadFailure) =
        (changed || !ok) ∧
      ((if changed then LoadAction.rebuild
        else if ok then LoadAction.loadCache else LoadAction.rebuildOnCacheLoadFailure) =
          LoadAction.loadCache ↔ changed = false ∧ ok = true) := by
    decide
  have hc : (!cacheExists || (csvs.any fun f => f.present && decide (cacheMtime < f.mtime)) ||
      !cacheLoadOk) = (csvHasChanged cacheExists cacheMtime csvs || !cacheLoadOk) := by
    cases cacheExists <;> simp [csvHasChanged]
  rw [hc]
  exact key (csvHasChanged cacheExists cacheMtime csvs) cacheLoadOk

/-- Witness for `loadWithCacheCheck_amended` at a concrete state: an
existing, fresh, readable cache is loaded without re-parsing. -/
theorem loadWithCacheCheck_amended_witness :
    loadWithCacheCheck true 0 [] true = .loadCache :=
  (loadWithCacheCheck_amended true 0 [] true).2.mpr ⟨by decide, rfl⟩

/-! ## C3, C4 — fuzzy matching -/

/-- The fuzzy score is never negative. -/
theorem fuzzScore_nonneg (a b : List Char) : 0 ≤ fuzzScore a b := by
  unfold fuzzScore
  split
  · norm_num
  · positivity

/-- Threshold comparison against a running maximum, unfolded to a scan of
the individual scores. -/
theorem le_foldl_max_iff (n : String) (emps : List String) (init t : ℚ) :
    (t ≤ emps.foldl (fun acc e => max acc (fuzzScore n.data e.data)) init) ↔
      t ≤ init ∨ ∃ e ∈ emps, t ≤ fuzzScore n.data e.data := by
  induction emps generalizing init with
  | nil => simp
  | cons e es ih =>
    rw [List.foldl_cons, ih, le_max_iff]
    simp only [List.mem_cons]
    constructor
    · rintro ((h | h) | ⟨x, hx, h⟩)
      · exact Or.inl h
      · exact Or.inr ⟨e, Or.inl rfl, h⟩
      · exact Or.inr ⟨x, Or.inr hx, h⟩
    · rintro (h | ⟨x, (rfl | hx), h⟩)
      · exact Or.inl (Or.inl h)
      · exact Or.inl (Or.inr h)
      · exact Or.inr ⟨x, hx, h⟩

/-- The best score of `extractOne` is at or above the threshold iff some member
scores at or above it (scores are non-negative, so for a non-empty set the
`0` accumulator seed is harmless). -/
theorem le_bestScore_iff (emps : List String) (n : String) (t : ℚ) (hne : emps ≠ []) :
    (t ≤ bestScore emps n) ↔ ∃ e ∈ emps, t ≤ fuzzScore n.data e.data := by
  rw [bestScore, le_foldl_max_iff]
  constructor
  · rintro (h0 | h)
    · obtain ⟨e, es, rfl⟩ := List.exists_cons_of_ne_nil hne
      exact ⟨e, List.mem_cons_self e es, le_trans h0 (fuzzScore_nonneg _ _)⟩
    · exact h
  · exact Or.inr

/-- C4: `fuzzy_match` (sponsor.py) returns true iff the input and the
reference set are non-empty and either the normalized input is an exact
member of the set (the short-circuit branch) or the best similarity ratio
(0–100 scale) between the normalized input and some member reaches the
threshold; in particular an empty input or an empty reference set always
yields false. -/
theorem sponsorFuzzyMatch_spec (employers : List String) (name : String) (t : ℚ) :
    sponsorFuzzyMatch employers name t = true ↔
      (name ≠ "" ∧ employers ≠ [] ∧
        (sponsorNormalize name ∈ employers ∨
          ∃ e ∈ employers, t ≤ fuzzScore (sponsorNormalize name).data e.data)) := by
  unfold sponsorFuzzyMatch
  by_cases hg : name = "" ∨ employers = []
  · rw [if_pos hg]
    simp only [Bool.false_eq_true, false_iff]
    rintro ⟨h1, h2, _⟩
    rcases hg with hg | hg
    · exact h1 hg
    · exact h2 hg
  · rw [if_neg hg]
    push_neg at hg
    by_cases hm : sponsorNormalize name ∈ employers
    · simp [hm, hg.1, hg.2]
    · rw [if_neg hm]
      simp only [decide_eq_true_eq, hg.1, hg.2, hm, false_or, ne_eq, not_false_iff, true_and]
      exact le_bestScore_iff employers (sponsorNormalize name) t hg.2

/-- Witness for `sponsorFuzzyMatch_spec`: a concrete exact-membership call. -/
theorem sponsorFuzzyMatch_spec_witness :
    sponsorFuzzyMatch ["acme"] "Acme" 90 = true :=
  (sponsorFuzzyMatch_spec ["acme"] "Acme" 90).mpr
    ⟨by decide, by decide, Or.inl (by decide)⟩

/-- C3: lowering the threshold only makes the approximate-match query more
permissive, for both implementations of `fuzzy_match` (sponsor.py and
assist.py): whatever matches at threshold `t2` also matches at any
`t1 ≤ t2`. -/
theorem fuzzyMatch_monotone (employers : List String) (name : String) (t1 t2 : ℚ)
    (h : t1 ≤ t2) :
    (sponsorFuzzyMatch employers name t2 = true → sponsorFuzzyMatch employers name t1 = true) ∧
    (assistFuzzyMatch employers name t2 = true → assistFuzzyMatch employers name t1 = true) := by
  constructor
  · intro h2
    rw [sponsorFuzzyMatch_spec] at h2 ⊢
    obtain ⟨hn, he, hc⟩ := h2
    refine ⟨hn, he, ?_⟩
    rcases hc with hc | ⟨e, he', hs⟩
    · exact Or.inl hc
    · exact Or.inr ⟨e, he', le_trans h hs⟩
  · intro h2
    unfold assistFuzzyMatch at h2 ⊢
    by_cases hn : name ≠ ""
    · rw [if_pos hn] at h2 ⊢
      rw [List.any_eq_true] at h2 ⊢
      obtain ⟨e, he, hs⟩ := h2
      rw [decide_eq_true_eq] at hs
      exact ⟨e, he, decide_eq_true (le_trans h hs)⟩
    · rw [if_neg hn] at h2
      exact absurd h2 (by simp)

/-- Witness for `fuzzyMatch_monotone` at concrete inputs (`t1 = 80 ≤ 90 = t2`;
both implementations match at 90, hence at 80). -/
theorem fuzzyMatch_monotone_witness :
    (80 : ℚ) ≤ 90 ∧ sponsorFuzzyMatch [""] " " 80 = true ∧
      assistFuzzyMatch [""] " " 80 = true :=
  ⟨by decide,
   (fuzzyMatch_monotone [""] " " 80 90 (by decide)).1 (by decide),
   (fuzzyMatch_monotone [""] " " 80 90 (by decide)).2 (by decide)⟩

/-! ## C10 — normalization idempotence -/

/-- Removing a pattern that does not occur is the identity. -/
theorem removeAllGo_eq_self (pat : List Char) (fuel : Nat) (l : List Char)
    (h : ¬ pat <:+: l) : removeAllGo pat fuel l = l := by
  induction fuel generalizing l with
  | zero => cases l <;> rfl
  | succ fuel ih =>
    cases l with
    | nil => rfl
    | cons c rest =>
      rw [removeAllGo]
      rw [if_neg, ih rest]
      · intro hrest
        exact h (hrest.trans ( List.IsSuffix.isInfix (List.suffix_cons c rest)))
      · rintro ⟨-, hpre⟩
        exact h ( List.IsPrefix.isInfix ( List.isPrefixOf_iff_prefix.mp hpre))

/-- Applying `removeAll` to a list in which the pattern is absent is the identity. -/
theorem removeAll_eq_self (pat : List Char) (l : List Char) (h : ¬ pat <:+: l) :
    removeAll pat l = l :=
  removeAllGo_eq_self pat l.length l h

/-- Mapping a function that fixes every element is the identity. -/
theorem map_eq_self_of_fixed {α : Type} (f : α → α) :
    ∀ (l : List α), (∀ c ∈ l, f c = c) → l.map f = l
  | [], _ => rfl
  | c :: rest, h => by
    rw [List.map_cons, h c (List.mem_cons_self c rest),
      map_eq_self_of_fixed f rest fun x hx => h x (List.mem_cons_of_mem c hx)]

/-- C10 (counterexample): `_normalize` is not idempotent, and a stored
member need not be retrievable by exact lookup of its own normalized form.
`"Google LLC"` normalizes to `"google "` (suffix removal happens after the
strip, exposing a trailing space), which re-normalizes to `"google"`; a
reference set storing `"google "` therefore answers false to
`has_sponsorship "google "`. -/
theorem sponsorNormalize_idempotent_counterexample :
    sponsorNormalize (sponsorNormalize "Google LLC") ≠ sponsorNormalize "Google LLC" ∧
    hasSponsorship [sponsorNormalize "Google LLC"] (sponsorNormalize "Google LLC") = false := by
  decide

/-- C10 (amended): `_normalize` is not idempotent in general (see the
counterexample: the suffix removals can expose new whitespace or new
pattern occurrences, so a stored member need not be a fixed point);
idempotence does hold for any input whose normal form is itself normal —
no leading/trailing whitespace left, every character already lower-case,
and no remaining occurrence of `","`, `"."`, `"inc"`, `"llc"` or
`"corp"`. -/
theorem sponsorNormalize_idempotent_amended (s : String)
    (h1 : pyStrip (sponsorNormalize s).data = (sponsorNormalize s).data)
    (h2 : ∀ c ∈ (sponsorNormalize s).data, pyLowerChar c = c)
    (h3 : ¬ [','] <:+: (sponsorNormalize s).data)
    (h4 : ¬ ['.'] <:+: (sponsorNormalize s).data)
    (h5 : ¬ ['i', 'n', 'c'] <:+: (sponsorNormalize s).data)
    (h6 : ¬ ['l', 'l', 'c'] <:+: (sponsorNormalize s).data)
    (h7 : ¬ ['c', 'o', 'r', 'p'] <:+: (sponsorNormalize s).data) :
    sponsorNormalize (sponsorNormalize s) = sponsorNormalize s := by
  have hl : pyLower (sponsorNormalize s).data = (sponsorNormalize s).data :=
    map_eq_self_of_fixed pyLowerChar _ h2
  have hy : sponsorNormalizeL (sponsorNormalize s).data = (sponsorNormalize s).data := by
    unfold sponsorNormalizeL
    rw [h1, hl, removeAll_eq_self _ _ h3, removeAll_eq_self _ _ h4,
      removeAll_eq_self _ _ h5, removeAll_eq_self _ _ h6, removeAll_eq_self _ _ h7]
  show (⟨sponsorNormalizeL (sponsorNormalize s).data⟩ : String) = sponsorNormalize s
  rw [hy]

/-- Witness for `sponsorNormalize_idempotent_amended`: `"acme"` is its own
normal form and re-normalizes to itself. -/
theorem sponsorNormalize_idempotent_amended_witness :
    sponsorNormalize (sponsorNormalize "acme") = sponsorNormalize "acme" :=
  sponsorNormalize_idempotent_amended "acme" (by decide) (by decide) (by decide)
    (by decide) (by decide) (by decide) (by decide)

/-! ## C1 — deduplicator -/

/-- The dedup loop only ever drops records, in order. -/
theorem dedupGo_sublist (seen : List (String × String × String)) (l : List Job) :
    (dedupGo seen l).Sublist l := by
  induction l generalizing seen with
  | nil => simp [dedupGo]
  | cons j rest ih =>
    rw [dedupGo]
    split
    · exact List.Sublist.cons₂ j (ih _)
    · exact List.Sublist.cons j (ih seen)

/-- Everything the dedup loop keeps has a fully non-empty key that was not
yet seen. -/
theorem dedupGo_mem (seen : List (String × String × String)) (l : List Job) {j : Job}
    (hj : j ∈ dedupGo seen l) :
    validKey (dedupKey j) = true ∧ dedupKey j ∉ seen := by
  induction l generalizing seen with
  | nil => simp [dedupGo] at hj
  | cons j0 rest ih =>
    rw [dedupGo] at hj
    split at hj
    · rename_i h
      rcases List.mem_cons.mp hj with rfl | hj'
      · exact ⟨h.2, h.1⟩
      · obtain ⟨hv, hns⟩ := ih _ hj'
        exact ⟨hv, fun hmem => hns (List.mem_cons_of_mem _ hmem)⟩
    · exact ih seen hj

/-- The keys of the dedup output are pairwise distinct. -/
theorem dedupGo_keys_nodup (seen : List (String × String × String)) (l : List Job) :
    ((dedupGo seen l).map dedupKey).Nodup := by
  induction l generalizing seen with
  | nil => simp [dedupGo]
  | cons j0 rest ih =>
    rw [dedupGo]
    split
    · rw [List.map_cons, List.nodup_cons]
      refine ⟨?_, ih _⟩
      rw [List.mem_map]
      rintro ⟨j', hj', heq⟩
      exact absurd (heq ▸ List.mem_cons_self (dedupKey j0) seen) (dedupGo_mem _ _ hj').2
    · exact ih seen

/-- Every input record with a fully non-empty, not-yet-seen key is
represented in the dedup output. -/
theorem dedupGo_covers (seen : List (String × String × String)) (l : List Job) {j : Job}
    (hj : j ∈ l) (hv : validKey (dedupKey j) = true) (hns : dedupKey j ∉ seen) :
    dedupKey j ∈ (dedupGo seen l).map dedupKey := by
  induction l generalizing seen with
  | nil => simp at hj
  | cons j0 rest ih =>
    rw [dedupGo]
    split
    · rcases List.mem_cons.mp hj with rfl | hj'
      · simp
      · by_cases hk : dedupKey j = dedupKey j0
        · simp [hk]
        · have : dedupKey j ∈ (dedupGo (dedupKey j0 :: seen) rest).map dedupKey :=
            ih _ hj' fun hmem => (List.mem_cons.mp hmem).elim hk hns
          simp [this]
    · rename_i h
      rcases List.mem_cons.mp hj with rfl | hj'
      · exact absurd ⟨hns, hv⟩ h
      · exact ih seen hj' hns

/-- Whatever the dedup loop keeps is the *first* record of the input whose
key equals its key (among records whose key is not in `seen`). -/
theorem dedupGo_first (seen : List (String × String × String)) (l : List Job) {j : Job}
    (hj : j ∈ dedupGo seen l) :
    l.find? (fun x => decide (dedupKey x = dedupKey j)) = some j := by
  induction l generalizing seen with
  | nil => simp [dedupGo] at hj
  | cons j0 rest ih =>
    rw [dedupGo] at hj
    split at hj
    · rename_i h
      rcases List.mem_cons.mp hj with rfl | hj'
      · exact List.find?_cons_of_pos _ (by simp)
      · have hne : dedupKey j ≠ dedupKey j0 := by
          intro heq
          exact (dedupGo_mem _ _ hj').2 (heq ▸ List.mem_cons_self (dedupKey j0) seen)
        rw [List.find?_cons_of_neg]
        · exact ih _ hj'
        · simp only [decide_eq_true_eq]
          exact fun heq => hne heq.symm
    · rename_i h
      have hne : dedupKey j0 ≠ dedupKey j := by
        intro heq
        obtain ⟨hv, hns⟩ := dedupGo_mem seen rest hj
        exact h ⟨heq ▸ hns, heq ▸ hv⟩
      rw [List.find?_cons_of_neg]
      · exact ih seen hj
      · simp only [decide_eq_true_eq]
        exact hne

/-- C1: `deduplicate_jobs` (i) preserves input order (its output is a
sublist of the input), (ii) keeps only records whose three normalized key
components are all non-empty, (iii) outputs pairwise-distinct keys,
(iv) represents every input record with a fully non-empty key, and
(v) the survivor of each key is the earliest-encountered input record with
that key.  Together: among records sharing a normalized key, exactly one
survives, namely the first seen, in first-seen order. -/
theorem deduplicateJobs_spec (jobs : List Job) :
    (deduplicateJobs jobs).Sublist jobs ∧
    (∀ j ∈ deduplicateJobs jobs, validKey (dedupKey j) = true) ∧
    ((deduplicateJobs jobs).map dedupKey).Nodup ∧
    (∀ j ∈ jobs, validKey (dedupKey j) = true →
      dedupKey j ∈ (deduplicateJobs jobs).map dedupKey) ∧
    (∀ j ∈ deduplicateJobs jobs,
      jobs.find? (fun x => decide (dedupKey x = dedupKey j)) = some j) := by
  refine ⟨dedupGo_sublist [] jobs, ?_, dedupGo_keys_nodup [] jobs, ?_, ?_⟩
  · exact fun j hj => (dedupGo_mem [] jobs hj).1
  · exact fun j hj hv => dedupGo_covers [] jobs hj hv (by simp)
  · exact fun j hj => dedupGo_first [] jobs hj

/-- Witness for `deduplicateJobs_spec` on a concrete two-record duplicate
pair. -/
theorem deduplicateJobs_spec_witness :
    (deduplicateJobs
        [{ company := "Acme", title := "SWE", location := "NYC", link := some "a" },
         { company := " ACME ", title := "swe", location := "nyc", link := some "b" }]).Sublist
      [{ company := "Acme", title := "SWE", location := "NYC", link := some "a" },
       { company := " ACME ", title := "swe", location := "nyc", link := some "b" }] ∧
    (∀ j ∈ deduplicateJobs
        [({ company := "Acme", title := "SWE", location := "NYC", link := some "a" } : Job),
         { company := " ACME ", title := "swe", location := "nyc", link := some "b" }],
      validKey (dedupKey j) = true) :=
  ⟨(deduplicateJobs_spec _).1, (deduplicateJobs_spec _).2.1⟩

/-! ## C7 — sponsorship tagger error handling -/

/-- Whether a lookup result is a normal return. -/
def lookupOk : Except Unit Bool → Bool
  | .ok _ => true
  | .error _ => false

/-- Whether a lookup result is a normal, positive return. -/
def lookupTrue : Except Unit Bool → Bool
  | .ok true => true
  | .ok false => false
  | .error _ => false

/-- The tag a record receives when its lookup returns normally (a failing
lookup leaves the record untouched). -/
def tagWith (lookup : String → Except Unit Bool) (j : Job) : Job :=
  match lookup j.company with
  | .ok b => { j with sponsorship := some (tagLabel b) }
  | .error _ => j

/-- C7 (counterexample): the claim says a failing per-record lookup tags
that record "No record found" and tagging continues, so that every record
ends the stage tagged.  False: the whole loop runs inside one `try`, so
when the lookup for the single record `{company := "a"}` raises, the stage
returns with that record's `sponsorship` still unset. -/
theorem tagSponsorship_claim_counterexample :
    ¬ (∀ (lookup : String → Except Unit Bool) (jobs : List Job),
        (tagSponsorship lookup jobs).2 = jobs.map fun j =>
          { j with sponsorship := some (match lookup j.company with
              | .ok b => tagLabel b
              | .error _ => tagLabel false) }) := by
  intro h
  exact absurd (h (fun _ => .error ()) [{ company := "a" }]) (by decide)

/-- When every lookup returns normally, the loop tags every record and
counts the positive ones. -/
theorem tagGo_all_ok (lookup : String → Except Unit Bool) (jobs : List Job)
    (hall : ∀ j ∈ jobs, lookupOk (lookup j.company) = true) :
    tagGo lookup jobs =
      (.ok ((jobs.filter fun j => lookupTrue (lookup j.company)).length),
       jobs.map (tagWith lookup)) := by
  induction jobs with
  | nil => rfl
  | cons j rest ih =>
    have hj := hall j (List.mem_cons_self j rest)
    rw [tagGo]
    cases hc : lookup j.company with
    | error e => rw [hc] at hj; simp [lookupOk] at hj
    | ok b =>
      rw [ih fun x hx => hall x (List.mem_cons_of_mem j hx)]
      rw [List.filter_cons, List.map_cons]
      have htag : tagWith lookup j = { j with sponsorship := some (tagLabel b) } := by
        rw [tagWith, hc]
      rw [htag, hc]
      cases b with
      | true => simp [lookupTrue]
      | false => simp [lookupTrue]

/-- The record list at the end of the loop: records before the first
failing lookup are tagged, the failing record and everything after it are
untouched. -/
theorem tagGo_snd (lookup : String → Except Unit Bool) (jobs : List Job) :
    (tagGo lookup jobs).2 =
      (jobs.take (jobs.findIdx fun j => !lookupOk (lookup j.company))).map (tagWith lookup) ++
        jobs.drop (jobs.findIdx fun j => !lookupOk (lookup j.company)) := by
  induction jobs with
  | nil => rfl
  | cons j rest ih =>
    rw [tagGo, List.findIdx_cons]
    cases hc : lookup j.company with
    | error e =>
      simp [hc, lookupOk]
    | ok b =>
      simp only [hc, lookupOk, Bool.not_true, cond_false]
      rw [List.take_succ_cons, List.drop_succ_cons, List.map_cons]
      have htag : tagWith lookup j = { j with sponsorship := some (tagLabel b) } := by
        rw [tagWith, hc]
      rcases hr : tagGo lookup rest with ⟨e | n, rest'⟩
      · have : rest' = (tagGo lookup rest).2 := by rw [hr]
        simp only [this, ih, htag]
        rfl
      · have : rest' = (tagGo lookup rest).2 := by rw [hr]
        simp only [this, ih, htag]
        rfl

/-- If some lookup fails, the loop propagates the exception. -/
theorem tagGo_fst_of_fail (lookup : String → Except Unit Bool) (jobs : List Job)
    (hex : ∃ j ∈ jobs, lookupOk (lookup j.company) = false) :
    (tagGo lookup jobs).1 = .error () := by
  induction jobs with
  | nil => simp at hex
  | cons j rest ih =>
    rw [tagGo]
    cases hc : lookup j.company with
    | error e => cases e; rfl
    | ok b =>
      have hex' : ∃ x ∈ rest, lookupOk (lookup x.company) = false := by
        obtain ⟨x, hx, hfail⟩ := hex
        rcases List.mem_cons.mp hx with rfl | hx'
        · rw [hc] at hfail; simp [lookupOk] at hfail
        · exact ⟨x, hx', hfail⟩
      rcases hr : tagGo lookup rest with ⟨e | n, rest'⟩
      · rfl
      · have := ih hex'
        rw [hr] at this
        simp at this

/-- C7 (amended): a raising per-record lookup aborts the tagging *stage*,
not the run: the records before the first failure keep the tags already
written into them, the failing record and all later records keep their
previous `sponsorship` value (they are not tagged "No record found"), and
the stage returns 0; when no lookup raises, every record is tagged and the
positive matches are counted. -/
theorem tagSponsorship_amended (lookup : String → Except Unit Bool) (jobs : List Job) :
    (tagSponsorship lookup jobs).2 =
      (jobs.take (jobs.findIdx fun j => !lookupOk (lookup j.company))).map (tagWith lookup) ++
        jobs.drop (jobs.findIdx fun j => !lookupOk (lookup j.company)) ∧
    ((∀ j ∈ jobs, lookupOk (lookup j.company) = true) →
      (tagSponsorship lookup jobs).1 =
        (jobs.filter fun j => lookupTrue (lookup j.company)).length ∧
      (tagSponsorship lookup jobs).2 = jobs.map (tagWith lookup)) ∧
    ((∃ j ∈ jobs, lookupOk (lookup j.company) = false) →
      (tagSponsorship lookup jobs).1 = 0) := by
  refine ⟨?_, ?_, ?_⟩
  · rw [tagSponsorship]
    rcases hr : tagGo lookup jobs with ⟨e | n, rest'⟩
    · have := tagGo_snd lookup jobs
      rw [hr] at this
      exact this
    · have := tagGo_snd lookup jobs
      rw [hr] at this
      exact this
  · intro hall
    rw [tagSponsorship, tagGo_all_ok lookup jobs hall]
    exact ⟨rfl, rfl⟩
  · intro hex
    rw [tagSponsorship]
    rcases hr : tagGo lookup jobs with ⟨e | n, rest'⟩
    · rfl
    · have := tagGo_fst_of_fail lookup jobs hex
      rw [hr] at this
      simp at this

/-- Witness for `tagSponsorship_amended`: with a lookup that raises on its
single record, the stage returns 0. -/
theorem tagSponsorship_amended_witness :
    (tagSponsorship (fun _ => Except.error ()) [({ company := "a" } : Job)]).1 = 0 :=
  (tagSponsorship_amended (fun _ => Except.error ()) [{ company := "a" }]).2.2
    ⟨{ company := "a" }, by decide, by decide⟩

/-! ## C2 — upsert idempotence -/

/-- Appending a row cannot remove a present link. -/
theorem linkPresent_append (store : List Job) (j : Job) (l : String)
    (h : linkPresent store l = true) : linkPresent (store ++ [j]) l = true := by
  unfold linkPresent at *
  rw [List.any_append]
  simp [h]

/-- The freshly appended row's own link is present. -/
theorem linkPresent_append_self (store : List Job) (j : Job) (l : String)
    (hj : j.link = some l) : linkPresent (store ++ [j]) l = true := by
  unfold linkPresent
  rw [List.any_append]
  simp [List.any_cons, hj]

/-- A conflict-update (replacing the rows holding link `l0` by a record
that itself has link `l0`) leaves every link-presence fact unchanged. -/
theorem linkPresent_update (store : List Job) (j : Job) (l0 : String)
    (hj : j.link = some l0) (l : String) :
    linkPresent (store.map fun r => if r.link = some l0 then j else r) l =
      linkPresent store l := by
  induction store with
  | nil => rfl
  | cons r rs ih =>
    unfold linkPresent at *
    rw [List.map_cons, List.any_cons, List.any_cons, ih]
    by_cases hr : r.link = some l0
    · rw [if_pos hr, hj, hr]
    · rw [if_neg hr]

/-- A successful bulk command never loses a present link. -/
theorem bulkGo_link_mono (jobs : List Job) :
    ∀ (store : List Job) (affected : List String) (ins upd : Nat)
      (s' : List Job) (i' u' : Nat),
      bulkGo store affected ins upd jobs = .ok (s', i', u') →
      ∀ l, linkPresent store l = true → linkPresent s' l = true := by
  induction jobs with
  | nil =>
    intro store affected ins upd s' i' u' h l hl
    rw [bulkGo] at h
    cases h
    exact hl
  | cons j rest ih =>
    intro store affected ins upd s' i' u' h l hl
    cases hlink : j.link with
    | none =>
      simp only [bulkGo, hlink] at h
      exact ih _ _ _ _ _ _ _ h l (linkPresent_append store j l hl)
    | some l0 =>
      simp only [bulkGo, hlink] at h
      by_cases hmem : l0 ∈ affected
      · rw [if_pos hmem] at h
        cases h
      · rw [if_neg hmem] at h
        by_cases hpres : linkPresent store l0 = true
        · rw [if_pos hpres] at h
          exact ih _ _ _ _ _ _ _ h l
            ((linkPresent_update store j l0 hlink l).symm ▸ hl)
        · rw [if_neg hpres] at h
          exact ih _ _ _ _ _ _ _ h l (linkPresent_append store j l hl)

/-- A bulk command whose value rows carry pairwise-distinct links, none of
which was already affected, succeeds, and afterwards every value row's link
is present in the store. -/
theorem bulkGo_ok (jobs : List Job) :
    ∀ (store : List Job) (affected : List String) (ins upd : Nat),
      (jobs.map Job.link).Nodup →
      (∀ j ∈ jobs, ∀ l, j.link = some l → l ∉ affected) →
      ∃ s' i' u', bulkGo store affected ins upd jobs = .ok (s', i', u') ∧
        ∀ j ∈ jobs, ∀ l, j.link = some l → linkPresent s' l = true := by
  induction jobs with
  | nil =>
    intro store affected ins upd _ _
    exact ⟨store, ins, upd, rfl, by simp⟩
  | cons j rest ih =>
    intro store affected ins upd hnd haff
    rw [List.map_cons, List.nodup_cons] at hnd
    cases hlink : j.link with
    | none =>
      obtain ⟨s', i', u', hrun, hpres⟩ := ih (store ++ [j]) affected (ins + 1) upd hnd.2
        fun x hx l hl => haff x (List.mem_cons_of_mem j hx) l hl
      refine ⟨s', i', u', ?_, ?_⟩
      · simp only [bulkGo, hlink]
        exact hrun
      · intro x hx l hl
        rcases List.mem_cons.mp hx with rfl | hx'
        · rw [hlink] at hl
          cases hl
        · exact hpres x hx' l hl
    | some l0 =>
      have hna : l0 ∉ affected := haff j (List.mem_cons_self j rest) l0 hlink
      have haff' : ∀ x ∈ rest, ∀ l, x.link = some l → l ∉ l0 :: affected := by
        intro x hx l hl hmem
        rcases List.mem_cons.mp hmem with rfl | hmem'
        · apply hnd.1
          rw [hlink, ← hl]
          exact List.mem_map_of_mem Job.link hx
        · exact haff x (List.mem_cons_of_mem j hx) l hl hmem'
      by_cases hpres : linkPresent store l0 = true
      · obtain ⟨s', i', u', hrun, hp⟩ :=
          ih (store.map fun r => if r.link = some l0 then j else r) (l0 :: affected)
            ins (upd + 1) hnd.2 haff'
        refine ⟨s', i', u', ?_, ?_⟩
        · simp only [bulkGo, hlink]
          rw [if_neg hna, if_pos hpres]
          exact hrun
        · intro x hx l hl
          rcases List.mem_cons.mp hx with heq | hx'
          · rw [heq, hlink] at hl
            injection hl with hl0
            rw [← hl0]
            exact bulkGo_link_mono rest _ _ _ _ _ _ _ hrun l0
              ((linkPresent_update store j l0 hlink l0).symm ▸ hpres)
          · exact hp x hx' l hl
      · obtain ⟨s', i', u', hrun, hp⟩ :=
          ih (store ++ [j]) (l0 :: affected) (ins + 1) upd hnd.2 haff'
        refine ⟨s', i', u', ?_, ?_⟩
        · simp only [bulkGo, hlink]
          rw [if_neg hna, if_neg hpres]
          exact hrun
        · intro x hx l hl
          rcases List.mem_cons.mp hx with heq | hx'
          · rw [heq, hlink] at hl
            injection hl with hl0
            rw [← hl0]
            exact bulkGo_link_mono rest _ _ _ _ _ _ _ hrun l0
              (linkPresent_append_self store j l0 hlink)
          · exact hp x hx' l hl

/-- A bulk command all of whose value rows carry pairwise-distinct,
already-present links performs only updates: no insert, one update per row,
store size unchanged. -/
theorem bulkGo_all_updates (jobs : List Job) :
    ∀ (store : List Job) (affected : List String) (ins upd : Nat),
      (jobs.map Job.link).Nodup →
      (∀ j ∈ jobs, ∃ l, j.link = some l ∧ linkPresent store l = true) →
      (∀ j ∈ jobs, ∀ l, j.link = some l → l ∉ affected) →
      ∃ s', bulkGo store affected ins upd jobs = .ok (s', ins, upd + jobs.length) ∧
        s'.length = store.length := by
  induction jobs with
  | nil =>
    intro store affected ins upd _ _ _
    exact ⟨store, rfl, rfl⟩
  | cons j rest ih =>
    intro store affected ins upd hnd hpres haff
    rw [List.map_cons, List.nodup_cons] at hnd
    obtain ⟨l0, hlink, hp0⟩ := hpres j (List.mem_cons_self j rest)
    have hna : l0 ∉ affected := haff j (List.mem_cons_self j rest) l0 hlink
    have haff' : ∀ x ∈ rest, ∀ l, x.link = some l → l ∉ l0 :: affected := by
      intro x hx l hl hmem
      rcases List.mem_cons.mp hmem with rfl | hmem'
      · apply hnd.1
        rw [hlink, ← hl]
        exact List.mem_map_of_mem Job.link hx
      · exact haff x (List.mem_cons_of_mem j hx) l hl hmem'
    have hpres' : ∀ x ∈ rest, ∃ l, x.link = some l ∧
        linkPresent (store.map fun r => if r.link = some l0 then j else r) l = true := by
      intro x hx
      obtain ⟨l, hl, hp⟩ := hpres x (List.mem_cons_of_mem j hx)
      exact ⟨l, hl, (linkPresent_update store j l0 hlink l).symm ▸ hp⟩
    obtain ⟨s', hrun, hlen⟩ :=
      ih (store.map fun r => if r.link = some l0 then j else r) (l0 :: affected)
        ins (upd + 1) hnd.2 hpres' haff'
    have hcount : upd + 1 + rest.length = upd + (j :: rest).length := by
      rw [List.length_cons]
      omega
    rw [hcount] at hrun
    refine ⟨s', ?_, ?_⟩
    · simp only [bulkGo, hlink]
      rw [if_neg hna, if_pos hp0]
      exact hrun
    · rw [hlen, List.length_map]

/-- C2: running the bulk upsert twice with the same record batch (records
with present, pairwise-distinct links — the claim's "unchanged upstream
dataset") leaves the persisted row count unchanged: the second run inserts
zero rows and updates every record against the existing row with its link. -/
theorem insertJobsBulk_idempotent (store jobs : List Job)
    (h1 : ∀ j ∈ jobs, (Job.link j).isSome = true)
    (h2 : (jobs.map Job.link).Nodup) :
    ∃ s1 ins1 upd1, insertJobsBulk store jobs = .ok (s1, ins1, upd1) ∧
      ∃ s2, insertJobsBulk s1 jobs = .ok (s2, 0, jobs.length) ∧
        s2.length = s1.length := by
  obtain ⟨s1, i1, u1, hrun1, hpres1⟩ :=
    bulkGo_ok jobs store [] 0 0 h2 (by simp)
  refine ⟨s1, i1, u1, hrun1, ?_⟩
  have hpres : ∀ j ∈ jobs, ∃ l, j.link = some l ∧ linkPresent s1 l = true := by
    intro j hj
    obtain ⟨l, hl⟩ := Option.isSome_iff_exists.mp (h1 j hj)
    exact ⟨l, hl, hpres1 j hj l hl⟩
  obtain ⟨s2, hrun2, hlen⟩ := bulkGo_all_updates jobs s1 [] 0 0 h2 hpres (by simp)
  rw [Nat.zero_add] at hrun2
  exact ⟨s2, hrun2, hlen⟩

/-- Witness for `insertJobsBulk_idempotent`: a one-record batch against an
empty store. -/
theorem insertJobsBulk_idempotent_witness :
    ∃ s1 ins1 upd1,
      insertJobsBulk [] [({ company := "a", link := some "x" } : Job)] =
        .ok (s1, ins1, upd1) ∧
      ∃ s2, insertJobsBulk s1 [({ company := "a", link := some "x" } : Job)] =
        .ok (s2, 0, 1) ∧ s2.length = s1.length :=
  insertJobsBulk_idempotent [] [{ company := "a", link := some "x" }]
    (by decide) (by simp)

/-! ## C8 — query-source retry and partial success -/

/-- C8: (i) on consecutive 429 responses, `fetch_positions` (default bound
of 3 attempts) sleeps the linearly increasing `(attempt+1)·5` seconds for
each attempt and, once the attempts are exhausted, returns the empty list
(no exception escapes: the function is total and yields a value);
(ii) in the multi-keyword `fetch_jobs`, a keyword whose retries are
exhausted contributes nothing, and the records already collected for the
preceding keyword are still returned (deduplicated by native job id). -/
theorem jsearch_retry_spec (L : List RJob) :
    (fetchPositions true (fun _ => ApiResp.rate429) "intern" 3).1 =
      (List.range 3).map (fun attempt => (attempt + 1) * 5) ∧
    (fetchPositions true (fun _ => ApiResp.rate429) "intern" 3).2 = [] ∧
    fetchJobs true (fun i _ => if i = 0 then ApiResp.ok L else ApiResp.rate429)
        ["software", "data science"] "intern" =
      dedupById ((filterByEmployment "intern" L).map mapJSearchJob) := by
  refine ⟨by decide, by decide, ?_⟩
  calc
    fetchJobs true (fun i _ => if i = 0 then ApiResp.ok L else ApiResp.rate429)
        ["software", "data science"] "intern" =
        dedupById ((filterByEmployment "intern" L).map mapJSearchJob ++ []) := rfl
    _ = dedupById ((filterByEmployment "intern" L).map mapJSearchJob) := by
        rw [List.append_nil]

/-- Witness for `jsearch_retry_spec` on the empty payload. -/
theorem jsearch_retry_spec_witness :
    (fetchPositions true (fun _ => ApiResp.rate429) "intern" 3).1 =
      (List.range 3).map (fun attempt => (attempt + 1) * 5) :=
  (jsearch_retry_spec []).1

/-! ## C9 — table-source link extraction -/

/-- The fallback scan is the first cell candidate, in order. -/
theorem fallbackScan_eq_head (cells : List Cell) :
    fallbackScan cells = (cells.filterMap cellCandidate).head? := by
  induction cells with
  | nil => rfl
  | cons td rest ih =>
    cases ha : firstAnchor td with
    | none =>
      have hcc : cellCandidate td = none := by rw [cellCandidate, ha]
      simp only [fallbackScan, List.filterMap_cons, ha, hcc]
      exact ih
    | some h =>
      by_cases hv : validHref h = true
      · have hcc : cellCandidate td = some h := by
          simp only [cellCandidate, ha, if_pos hv]
        simp only [fallbackScan, List.filterMap_cons, ha, hcc, if_pos hv]
        rfl
      · have hcc : cellCandidate td = none := by
          simp only [cellCandidate, ha, if_neg hv]
        simp only [fallbackScan, List.filterMap_cons, ha, hcc, if_neg hv]
        exact ih

/-- Shape of a processed row: either nothing is emitted, or the emitted
record carries the row's extracted link and passed validation. -/
theorem processRow_out (cc : Option String) (tds : List Cell) :
    (processRow cc tds).1 = none ∨
    ∃ j, (processRow cc tds).1 = some j ∧ j.link = extractLink tds ∧
      isValidJob j = true := by
  rcases tds with _ | ⟨t0, _ | ⟨t1, _ | ⟨t2, rest⟩⟩⟩
  · exact Or.inl rfl
  · exact Or.inl rfl
  · exact Or.inl rfl
  · rw [processRow]
    split
    · exact Or.inl rfl
    · dsimp only
      split
      · rename_i hv
        exact Or.inr ⟨_, rfl, rfl, hv⟩
      · exact Or.inl rfl

/-- A record that passes `_is_valid_job` has a non-empty link. -/
theorem isValidJob_link (j : Job) (h : isValidJob j = true) :
    ∃ l, j.link = some l ∧ l ≠ "" := by
  rw [isValidJob] at h
  simp only [Bool.and_eq_true] at h
  rcases hl : j.link with _ | l
  · rw [hl] at h
    simp at h
  · refine ⟨l, rfl, ?_⟩
    have h2 := h.2
    rw [hl] at h2
    simpa using h2

/-- C9 (counterexample): the claim says the link is taken from the first
valid hyperlink in a column *strictly after* the title column, and that a
row with no such hyperlink is still emitted with a null link.  False: for
the row `["Acme", "SWE" (with one valid link), "NYC"]` there is no
hyperlink after the title column, yet the code emits the record with the
link found in the *title* column (the fallback scans `tds[1:]`); and a row
with no link at all is dropped by `_is_valid_job`, not emitted. -/
theorem simplify_link_claim_counterexample :
    ¬ (∀ (cc : Option String) (tds : List Cell),
        3 ≤ tds.length →
        (∀ j, (processRow cc tds).1 = some j →
          j.link = ((List.drop 2 tds).filterMap cellCandidate).head?) ∧
        (((List.drop 2 tds).filterMap cellCandidate).head? = none →
          ((processRow cc tds).2).isSome = true → (processRow cc tds).1 ≠ none)) := by
  intro h
  have h1 := (h none [⟨"Acme", []⟩, ⟨"SWE", ["https://a.example/x"]⟩, ⟨"NYC", []⟩]
      (by decide)).1
    { company := "acme", title := "SWE", location := "NYC",
      link := some "https://a.example/x", source := "simplify" } (by decide)
  exact absurd h1 (by decide)

/-- C9 (amended): every record `parse_tables` emits carries a non-empty
link, equal to `extractLink` of its row; rows whose extraction finds no
link are dropped (not emitted); and the extracted link is column 3's first
anchor when that anchor is valid, otherwise the first valid first-anchor
among the columns from the *title column onward* (`tds[1:]`, not only the
columns strictly after the title). -/
theorem simplify_link_amended (cc : Option String) (tds : List Cell) :
    (∀ j, (processRow cc tds).1 = some j →
      j.link = extractLink tds ∧ ∃ l, extractLink tds = some l ∧ l ≠ "") ∧
    (extractLink tds = none → (processRow cc tds).1 = none) ∧
    extractLink tds =
      ((tds[3]?.bind cellCandidate).orElse
        fun _ => ((List.drop 1 tds).filterMap cellCandidate).head?) := by
  have hprim : extractPrimary tds = tds[3]?.bind cellCandidate := by
    rw [extractPrimary]
    by_cases h3 : 3 < tds.length
    · rw [if_pos h3]
      cases tds[3]? <;> rfl
    · rw [if_neg h3, List.getElem?_eq_none (by omega)]
      rfl
  refine ⟨?_, ?_, ?_⟩
  · intro j hj
    rcases processRow_out cc tds with hout | ⟨j', hj', hlink, hvalid⟩
    · rw [hout] at hj
      cases hj
    · rw [hj'] at hj
      injection hj with hj
      subst hj
      exact ⟨hlink, hlink ▸ isValidJob_link j' hvalid⟩
  · intro hnone
    rcases processRow_out cc tds with hout | ⟨j', hj', hlink, hvalid⟩
    · exact hout
    · obtain ⟨l, hl, -⟩ := isValidJob_link j' hvalid
      rw [hlink, hnone] at hl
      cases hl
  · rw [extractLink, hprim]
    cases hb : tds[3]?.bind cellCandidate with
    | some h => rfl
    | none =>
      rw [fallbackScan_eq_head]
      rfl

/-- Witness for `simplify_link_amended` at the counterexample row: the
extracted link is the title column's anchor, by the amended rule. -/
theorem simplify_link_amended_witness :
    extractLink [⟨"Acme", []⟩, ⟨"SWE", ["https://a.example/x"]⟩, ⟨"NYC", []⟩] =
      ((([⟨"Acme", []⟩, ⟨"SWE", ["https://a.example/x"]⟩, ⟨"NYC", []⟩] :
          List Cell)[3]?.bind cellCandidate).orElse
        fun _ =>
          ((List.drop 1 [⟨"Acme", []⟩, ⟨"SWE", ["https://a.example/x"]⟩,
              ⟨"NYC", []⟩]).filterMap cellCandidate).head?) :=
  (simplify_link_amended none
      [⟨"Acme", []⟩, ⟨"SWE", ["https://a.example/x"]⟩, ⟨"NYC", []⟩]).2.2

end Libra
